import Mathlib

/-!
Verification of the worksheet change-detection script (`check_sheet_changes.py`).

The script is embedded shallowly:

* Python `dict[str, str]` values (the fingerprint state) become insertion-ordered
  association lists with update-in-place semantics (`dictGet` / `dictInsert`).
* The content fingerprint `hashlib.md5(str(all_values).encode('utf-8')).hexdigest()`
  is embedded in full: `pyStr` models Python's `str` of a list of lists of strings
  (`repr` quoting and escaping; characters above `0x7f` are kept literal, where
  CPython additionally escapes the non-printable ones — both encodings are
  injective, which is the property at stake), `utf8Bytes` is UTF-8 encoding and
  `md5Nat`/`md5hex` the MD5 digest and its hex rendering.
* External effects are oracle parameters: the worksheet read is a function from a
  worksheet name to `Except` (error or the grid of rendered cell text), the
  notification POST outcome is an `Except` (transport error or HTTP status code),
  and the state-file write outcome is a boolean.  `sys.exit(1)` is `Except.error 1`.
-/

/-! ## Python dictionaries as insertion-ordered association lists -/

/-- `d.get(k)` for a Python `dict` represented as an insertion-ordered list. -/
def dictGet : List (String × String) → String → Option String
  | [], _ => none
  | (k, v) :: rest, n => if k = n then some v else dictGet rest n

/-- `d[k] = v` for a Python `dict`: updates in place, else appends at the end. -/
def dictInsert : List (String × String) → String → String → List (String × String)
  | [], k, v => [(k, v)]
  | (k0, v0) :: rest, k, v =>
    if k0 = k then (k0, v) :: rest else (k0, v0) :: dictInsert rest k v

/-! ## MD5 (`hashlib.md5`), over byte lists, producing a 128-bit natural -/

/-- The 64 MD5 round constants `K[i] = floor(2^32 * |sin(i+1)|)`. -/
def MD5_K : List Nat := [3614090360, 3905402710, 606105819, 3250441966, 4118548399,
  1200080426, 2821735955, 4249261313, 1770035416, 2336552879, 4294925233, 2304563134,
  1804603682, 4254626195, 2792965006, 1236535329, 4129170786, 3225465664, 643717713,
  3921069994, 3593408605, 38016083, 3634488961, 3889429448, 568446438, 3275163606,
  4107603335, 1163531501, 2850285829, 4243563512, 1735328473, 2368359562, 4294588738,
  2272392833, 1839030562, 4259657740, 2763975236, 1272893353, 4139469664, 3200236656,
  681279174, 3936430074, 3572445317, 76029189, 3654602809, 3873151461, 530742520,
  3299628645, 4096336452, 1126891415, 2878612391, 4237533241, 1700485571, 2399980690,
  4293915773, 2240044497, 1873313359, 4264355552, 2734768916, 1309151649, 4149444226,
  3174756917, 718787259, 3951481745]

/-- The 64 MD5 per-round left-rotation amounts. -/
def MD5_S : List Nat := [7, 12, 17, 22, 7, 12, 17, 22, 7, 12, 17, 22, 7, 12, 17, 22,
  5, 9, 14, 20, 5, 9, 14, 20, 5, 9, 14, 20, 5, 9, 14, 20,
  4, 11, 16, 23, 4, 11, 16, 23, 4, 11, 16, 23, 4, 11, 16, 23,
  6, 10, 15, 21, 6, 10, 15, 21, 6, 10, 15, 21, 6, 10, 15, 21]

/-- 32-bit left rotation (argument assumed `< 2^32`). -/
def rotl32 (x n : Nat) : Nat := ((x <<< n) + (x >>> (32 - n))) % 4294967296

/-- 32-bit bitwise complement. -/
def w32not (x : Nat) : Nat := x ^^^ 4294967295

/-- One MD5 round: state `(a,b,c,d)`, message-word accessor `M`, round index `i`. -/
def md5round (M : Nat → Nat) (st : Nat × Nat × Nat × Nat) (i : Nat) :
    Nat × Nat × Nat × Nat :=
  let a := st.1; let b := st.2.1; let c := st.2.2.1; let d := st.2.2.2
  let f :=
    if i < 16 then (b &&& c) ||| (w32not b &&& d)
    else if i < 32 then (d &&& b) ||| (w32not d &&& c)
    else if i < 48 then b ^^^ c ^^^ d
    else c ^^^ (b ||| w32not d)
  let g :=
    if i < 16 then i
    else if i < 32 then (5 * i + 1) % 16
    else if i < 48 then (3 * i + 5) % 16
    else (7 * i) % 16
  let f2 := (f + a + MD5_K.getD i 0 + M g) % 4294967296
  (d, (b + rotl32 f2 (MD5_S.getD i 0)) % 4294967296, b, c)

/-- Process one 64-byte block (words read little-endian). -/
def md5block (st : Nat × Nat × Nat × Nat) (block : List Nat) : Nat × Nat × Nat × Nat :=
  let M := fun j => block.getD (4 * j) 0 + 256 * block.getD (4 * j + 1) 0 +
    65536 * block.getD (4 * j + 2) 0 + 16777216 * block.getD (4 * j + 3) 0
  let r := (List.range 64).foldl (md5round M) st
  ((st.1 + r.1) % 4294967296, (st.2.1 + r.2.1) % 4294967296,
   (st.2.2.1 + r.2.2.1) % 4294967296, (st.2.2.2 + r.2.2.2) % 4294967296)

/-- MD5 padding: `0x80`, zeros to 56 mod 64, then the 8-byte little-endian bit length. -/
def md5pad (msg : List Nat) : List Nat :=
  msg ++ [128] ++ List.replicate ((119 - msg.length % 64) % 64) 0 ++
    (List.range 8).map (fun i => (8 * msg.length) >>> (8 * i) % 256)

/-- Split a byte list into 64-byte chunks (structural recursion on a fuel
bound; every step consumes at least one element, so `fuel = l.length`
suffices). -/
def chunks64Aux : Nat → List Nat → List (List Nat)
  | 0, _ => []
  | _, [] => []
  | fuel + 1, x :: rest => (x :: rest).take 64 :: chunks64Aux fuel ((x :: rest).drop 64)

/-- Split a byte list into 64-byte chunks. -/
def chunks64 (l : List Nat) : List (List Nat) := chunks64Aux l.length l

/-- The MD5 digest of a byte list, as a natural number below `2^128`
(the digest bytes read little-endian, which matches word order `a,b,c,d`
each little-endian). -/
def md5Nat (msg : List Nat) : Nat :=
  let r := (chunks64 (md5pad msg)).foldl md5block
    (1732584193, 4023233417, 2562383102, 271733878)
  (r.1 + 4294967296 * r.2.1 + 18446744073709551616 * r.2.2.1 +
    79228162514264337593543950336 * r.2.2.2) % 340282366920938463463374607431768211456

/-- Lowercase hex digit. -/
def hexDigit (n : Nat) : Char := if n < 10 then Char.ofNat (48 + n) else Char.ofNat (87 + n)

/-- `k` bytes of `n`, little-endian, two lowercase hex characters each
(high nibble first). -/
def digestChars : Nat → Nat → List Char
  | 0, _ => []
  | k + 1, n => hexDigit (n % 256 / 16) :: hexDigit (n % 16) :: digestChars k (n / 256)

/-- `hexdigest()`: the 32-character lowercase hex string of a 128-bit digest. -/
def md5hex (n : Nat) : String := String.mk (digestChars 16 n)

/-! ## UTF-8 encoding (`str.encode('utf-8')`) -/

/-- UTF-8 encoding of one character, as a list of bytes. -/
def utf8Char (c : Char) : List Nat :=
  let n := c.toNat
  if n < 128 then [n]
  else if n < 2048 then [192 + n / 64, 128 + n % 64]
  else if n < 65536 then [224 + n / 4096, 128 + n / 64 % 64, 128 + n % 64]
  else [240 + n / 262144, 128 + n / 4096 % 64, 128 + n / 64 % 64, 128 + n % 64]

/-- UTF-8 encoding of a string, as a list of bytes. -/
def utf8Bytes (s : String) : List Nat := s.data.flatMap utf8Char

/-! ## Python `str` of a list of lists of strings (`content_str = str(all_values)`) -/

/-- The quote character CPython `repr` picks for a string: single quote, unless the
string contains a single quote and no double quote. -/
def pyQuote (s : String) : Char :=
  if '\'' ∈ s.data ∧ ¬ '"' ∈ s.data then '"' else '\''

/-- CPython `repr` escaping of one character under quoting character `q`:
backslash and `q` are backslash-escaped, newline / carriage return / tab become
`\n` / `\r` / `\t`, other ASCII control characters and DEL become `\xhh`, and
everything else is kept literal. -/
def reprEscChar (q c : Char) : List Char :=
  if c = '\\' then ['\\', '\\']
  else if c = q then ['\\', q]
  else if c = '\n' then ['\\', 'n']
  else if c = '\r' then ['\\', 'r']
  else if c = '\t' then ['\\', 't']
  else if c.toNat < 32 ∨ c.toNat = 127 then
    ['\\', 'x', hexDigit (c.toNat / 16), hexDigit (c.toNat % 16)]
  else [c]

/-- The body (between the quotes) of CPython `repr` of a string. -/
def escBody (q : Char) (s : String) : List Char := s.data.flatMap (reprEscChar q)

/-- CPython `repr` of a string, as a character list. -/
def pyReprStr (s : String) : List Char :=
  pyQuote s :: (escBody (pyQuote s) s ++ [pyQuote s])

/-- `", "`-separated continuation: `sepRest f [x1, ...] = ", " ++ f x1 ++ ...`. -/
def sepRest (f : α → List Char) : List α → List Char
  | [] => []
  | x :: xs => ',' :: ' ' :: (f x ++ sepRest f xs)

/-- The body (between the brackets) of `repr` of a list, elements rendered by `f`. -/
def listBody (f : α → List Char) : List α → List Char
  | [] => []
  | x :: xs => f x ++ sepRest f xs

/-- CPython `repr` of a list of strings (one worksheet row). -/
def pyReprRow (r : List String) : List Char := '[' :: (listBody pyReprStr r ++ [']'])

/-- `str(all_values)` for a grid (list of rows of rendered cell text). -/
def pyStr (g : List (List String)) : String :=
  String.mk ('[' :: (listBody pyReprRow g ++ [']']))

/-! ## The script's functions -/

/-- The content digest of a fetched grid:
`hashlib.md5(str(all_values).encode('utf-8')).hexdigest()`
(`get_worksheet_hash`, lines 52–58). -/
def wsDigest (g : List (List String)) : String := md5hex (md5Nat (utf8Bytes (pyStr g)))

/-- `get_worksheet_hash`: the worksheet read is an oracle outcome; any retrieval
failure (worksheet not found, network, permission) is `sys.exit(1)`. -/
def get_worksheet_hash (fetched : Except String (List (List String))) : Except Nat String :=
  match fetched with
  | .error _ => .error 1
  | .ok g => .ok (wsDigest g)

/-- `load_last_hashes`: `none` = no state file, `some none` = file exists but cannot
be parsed, `some (some d)` = parsed JSON object.  Missing or unparsable state yields
the empty dict, never an error. -/
def load_last_hashes : Option (Option (List (String × String))) → List (String × String)
  | none => []
  | some none => []
  | some (some d) => d

/-- `save_hashes`: the file write is an oracle outcome; a failed write is
`sys.exit(1)`. -/
def save_hashes (writeOk : Bool) (_hashes : List (String × String)) : Except Nat Unit :=
  if writeOk then .ok () else .error 1

/-- The notification card fields the claims mention (lines 102–127): the
`keyValue` count line and the bulleted `textParagraph` list. -/
structure ChatCard where
  countText : String
  worksheetsText : String
  linkUrl : String
deriving DecidableEq

/-- Payload construction inside `send_google_chat_card`. -/
def buildCard (changed : List String) (spreadsheetId : String) : ChatCard :=
  { countText := toString changed.length ++ " worksheet(s) updated"
    worksheetsText := String.intercalate "\n" (changed.map (fun w => "• " ++ w))
    linkUrl := "https://docs.google.com/spreadsheets/d/" ++ spreadsheetId }

/-- `send_google_chat_card`'s outcome: the POST result is an oracle
(`.error` = transport exception, `.ok code` = HTTP status).  Returns `true`
exactly on status 200; every exception is caught and yields `false`
(lines 160–171). -/
def send_google_chat_card (resp : Except String Nat) : Bool :=
  match resp with
  | .ok code => code == 200
  | .error _ => false

/-- The per-worksheet loop of `main` (lines 211–218): fetch and hash each
requested worksheet, record the hash in `current_hashes`, and append the name to
`changed_worksheets` when the prior entry is absent or different. -/
def checkLoop (ws : String → Except String (List (List String)))
    (last_hashes : List (String × String)) :
    List String → List (String × String) → List String →
    Except Nat (List (String × String) × List String)
  | [], current_hashes, changed => .ok (current_hashes, changed)
  | ws_name :: rest, current_hashes, changed =>
    match get_worksheet_hash (ws ws_name) with
    | .error c => .error c
    | .ok current_hash =>
      checkLoop ws last_hashes rest (dictInsert current_hashes ws_name current_hash)
        (if dictGet last_hashes ws_name ≠ some current_hash
         then changed ++ [ws_name] else changed)

/-- What a completed run of `main` produced. -/
structure RunOutcome where
  /-- `current_hashes` after the `last_checked` timestamp was added. -/
  currentHashes : List (String × String)
  /-- `changed_worksheets`. -/
  changed : List String
  /-- `none` when no notification call was made, else the notifier's result. -/
  notified : Option Bool
  /-- The dict written by `save_hashes`. -/
  savedState : List (String × String)
  /-- `main`'s return value. -/
  changesFound : Bool
deriving DecidableEq

/-- The source's `main`, from the point after configuration and credential
loading (lines 205–240): oracles stand for the worksheet reads (`ws`), the
state-file write outcome (`writeOk`) and the notification POST outcome (`resp`);
`last_hashes` is the loaded prior state and `nowIso` the run timestamp.
(Named `main_run` because Lean reserves `main` for an entry point.) -/
def main_run (ws : String → Except String (List (List String)))
    (worksheet_names : List String) (last_hashes : List (String × String))
    (nowIso : String) (writeOk : Bool) (resp : Except String Nat) :
    Except Nat RunOutcome :=
  match checkLoop ws last_hashes worksheet_names [] [] with
  | .error c => .error c
  | .ok (current_hashes, changed_worksheets) =>
    let ch2 := dictInsert current_hashes "last_checked" nowIso
    if changed_worksheets.isEmpty then
      match save_hashes writeOk ch2 with
      | .error c => .error c
      | .ok _ => .ok ⟨ch2, changed_worksheets, none, ch2, false⟩
    else
      let sent := send_google_chat_card resp
      match save_hashes writeOk ch2 with
      | .error c => .error c
      | .ok _ => .ok ⟨ch2, changed_worksheets, some sent, ch2, true⟩

/-! ## Auxiliary definitions for the statements and proofs -/

/-- A worksheet oracle on which every read succeeds, returning `g n`. -/
def okOracle (g : String → List (List String)) :
    String → Except String (List (List String)) := fun n => .ok (g n)

/-- The spec's change predicate, following its words: a worksheet is changed when
it has no entry in the prior state, or its current digest differs from the prior
entry. -/
def specChanged (prior : List (String × String)) (g : String → List (List String))
    (n : String) : Bool :=
  match dictGet prior n with
  | none => true
  | some h0 => decide (h0 ≠ wsDigest (g n))

/-- The `current_hashes` dict accumulated by the loop of `main` on oracle `g`. -/
def runHashes (g : String → List (List String)) (names : List String) :
    List (String × String) :=
  names.foldl (fun d n => dictInsert d n (wsDigest (g n))) []

/-- The dict `main` hands to `save_hashes`: the run's hashes plus the
`last_checked` timestamp. -/
def savedStateOf (g : String → List (List String)) (names : List String)
    (nowIso : String) : List (String × String) :=
  dictInsert (runHashes g names) "last_checked" nowIso

/-- Observer: the state a completed run wrote (`none` when the run exited). -/
def outState : Except Nat RunOutcome → Option (List (String × String))
  | .error _ => none
  | .ok out => some out.savedState

/-- Observer: the change list of a completed run. -/
def outChanged : Except Nat RunOutcome → Option (List String)
  | .error _ => none
  | .ok out => some out.changed

/-- Observer: the notification activity of a completed run
(`some none` = completed without a notification call). -/
def outNotified : Except Nat RunOutcome → Option (Option Bool)
  | .error _ => none
  | .ok out => some out.notified

/-- The cell at row `i`, column `j` of a grid, when present. -/
def cellAt (g : List (List String)) (i j : Nat) : Option String :=
  g[i]?.bind fun row => row[j]?

/-- Two grids differ in the textual value of at least one cell. -/
def cellDiffers (g1 g2 : List (List String)) : Prop :=
  ∃ i j, cellAt g1 i j ≠ cellAt g2 i j

/-- An injective supply of strings (`n` copies of `a`). -/
def natStr (n : Nat) : String := String.mk (List.replicate n 'a')

/-- Numeric value of a lowercase hex digit character. -/
def hexVal (c : Char) : Nat := if c.toNat ≤ 57 then c.toNat - 48 else c.toNat - 87

/-- Inverse of the two-character escapes: `n`/`r`/`t` give the control character,
anything else (backslash or a quote) stands for itself. -/
def unesc (e : Char) : Char :=
  if e = 'n' then '\n' else if e = 'r' then '\r' else if e = 't' then '\t' else e

/-- Decoder for `repr` string bodies under quote `q`: consumes escaped characters
until the unescaped closing quote, returning the decoded characters and the rest
of the input.  Used only to prove the escaping injective. -/
def decodeBody (q : Char) : List Char → Option (List Char × List Char)
  | [] => none
  | c :: rest =>
    if c = q then some ([], rest)
    else if c = '\\' then
      match rest with
      | [] => none
      | e :: rest2 =>
        if e = 'x' then
          match rest2 with
          | h1 :: h2 :: rest3 =>
            (decodeBody q rest3).map
              (fun p => (Char.ofNat (16 * hexVal h1 + hexVal h2) :: p.1, p.2))
          | _ => none
        else (decodeBody q rest2).map (fun p => (unesc e :: p.1, p.2))
    else (decodeBody q rest).map (fun p => (c :: p.1, p.2))

/-! ## Dictionary lemmas -/

theorem dictGet_insert (d : List (String × String)) (k v m : String) :
    dictGet (dictInsert d k v) m = if k = m then some v else dictGet d m := by
  induction d with
  | nil => simp [dictInsert, dictGet]
  | cons kv rest ih =>
    obtain ⟨k0, v0⟩ := kv
    by_cases h1 : k0 = k <;> by_cases h2 : k = m <;>
      simp_all [dictInsert, dictGet]

/-! ## Characterizing the worksheet loop and `main_run` -/

theorem checkLoop_okOracle (g : String → List (List String))
    (prior : List (String × String)) :
    ∀ (names : List String) (cur : List (String × String)) (chg : List String),
    checkLoop (okOracle g) prior names cur chg =
      .ok (names.foldl (fun d n => dictInsert d n (wsDigest (g n))) cur,
        chg ++ names.filter (fun n => decide (dictGet prior n ≠ some (wsDigest (g n))))) := by
  intro names
  induction names with
  | nil => intro cur chg; simp [checkLoop]
  | cons n rest ih =>
    intro cur chg
    by_cases h : dictGet prior n = some (wsDigest (g n)) <;>
      simp [checkLoop, okOracle, get_worksheet_hash, h, ih, List.filter_cons]

theorem loopPred_eq_specChanged (prior : List (String × String))
    (g : String → List (List String)) (n : String) :
    decide (dictGet prior n ≠ some (wsDigest (g n))) = specChanged prior g n := by
  unfold specChanged
  cases h : dictGet prior n <;> simp

theorem checkLoop_specChanged (g : String → List (List String))
    (prior : List (String × String)) (names : List String) :
    checkLoop (okOracle g) prior names [] [] =
      .ok (runHashes g names, names.filter (specChanged prior g)) := by
  rw [checkLoop_okOracle]
  have hp : (fun n => decide (dictGet prior n ≠ some (wsDigest (g n)))) =
      specChanged prior g := funext (loopPred_eq_specChanged prior g)
  rw [hp]
  simp [runHashes]

theorem dictGet_runFold (g : String → List (List String)) :
    ∀ (names : List String) (cur : List (String × String)) (m : String),
    dictGet (names.foldl (fun d n => dictInsert d n (wsDigest (g n))) cur) m =
      if m ∈ names then some (wsDigest (g m)) else dictGet cur m := by
  intro names
  induction names with
  | nil => simp
  | cons n rest ih =>
    intro cur m
    simp only [List.foldl_cons, ih, dictGet_insert, List.mem_cons]
    by_cases h1 : m ∈ rest
    · simp [h1]
    · by_cases h2 : m = n
      · subst h2; simp [h1]
      · simp [h1, h2]
        intro h
        exact absurd h.symm h2

theorem dictGet_savedStateOf (g : String → List (List String)) (names : List String)
    (nowIso k : String) :
    dictGet (savedStateOf g names nowIso) k =
      if k = "last_checked" then some nowIso
      else if k ∈ names then some (wsDigest (g k)) else none := by
  unfold savedStateOf runHashes
  rw [dictGet_insert, dictGet_runFold]
  by_cases h1 : k = "last_checked" <;> by_cases h2 : k ∈ names <;>
    simp_all [dictGet, eq_comm]

theorem main_run_okOracle (g : String → List (List String)) (names : List String)
    (prior : List (String × String)) (nowIso : String) (resp : Except String Nat) :
    main_run (okOracle g) names prior nowIso true resp =
      .ok ⟨savedStateOf g names nowIso, names.filter (specChanged prior g),
        if (names.filter (specChanged prior g)).isEmpty then none
        else some (send_google_chat_card resp),
        savedStateOf g names nowIso, !(names.filter (specChanged prior g)).isEmpty⟩ := by
  unfold main_run
  rw [checkLoop_specChanged]
  by_cases h : (names.filter (specChanged prior g)).isEmpty <;>
    simp [h, save_hashes, savedStateOf]

theorem main_run_writeFail (g : String → List (List String)) (names : List String)
    (prior : List (String × String)) (nowIso : String) (resp : Except String Nat) :
    main_run (okOracle g) names prior nowIso false resp = .error 1 := by
  unfold main_run
  rw [checkLoop_specChanged]
  by_cases h : (names.filter (specChanged prior g)).isEmpty <;>
    simp [h, save_hashes]

/-! ## Counting and digest-shape lemmas -/

theorem count_filter_of_pred {p : String → Bool} (n : String) (hp : p n = true) :
    ∀ l : List String, (l.filter p).count n = l.count n := by
  intro l
  induction l with
  | nil => simp
  | cons x xs ih =>
    by_cases hx : x = n
    · subst hx; simp [List.filter_cons, hp, List.count_cons, ih]
    · by_cases hpx : p x = true <;>
        simp [List.filter_cons, hpx, List.count_cons, hx, ih]

theorem digestChars_length : ∀ k n, (digestChars k n).length = 2 * k := by
  intro k
  induction k with
  | zero => intro n; simp [digestChars]
  | succ k ih => intro n; simp [digestChars, ih]; omega

theorem md5hex_length (n : Nat) : (md5hex n).length = 32 := by
  simp [md5hex, String.length, digestChars_length]

theorem wsDigest_length (g : List (List String)) : (wsDigest g).length = 32 :=
  md5hex_length _

theorem ne_wsDigest_of_length {s : String} (g : List (List String))
    (h : s.length ≠ 32) : s ≠ wsDigest g :=
  fun he => h (he ▸ wsDigest_length g)

theorem hexDigit_inj : ∀ x < 16, ∀ y < 16, hexDigit x = hexDigit y → x = y := by
  decide

theorem md5Nat_lt (msg : List Nat) :
    md5Nat msg < 340282366920938463463374607431768211456 := by
  unfold md5Nat
  exact Nat.mod_lt _ (by norm_num)

theorem digestChars_inj :
    ∀ k a b, a < 256 ^ k → b < 256 ^ k → digestChars k a = digestChars k b → a = b := by
  intro k
  induction k with
  | zero => intro a b ha hb _; simp at ha hb; omega
  | succ k ih =>
    intro a b ha hb h
    simp only [digestChars, List.cons.injEq] at h
    obtain ⟨h1, h2, h3⟩ := h
    have e1 : a % 256 / 16 = b % 256 / 16 :=
      hexDigit_inj _ (by omega) _ (by omega) h1
    have e2 : a % 16 = b % 16 := hexDigit_inj _ (by omega) _ (by omega) h2
    have ha2 : a / 256 < 256 ^ k := Nat.div_lt_of_lt_mul (by rw [pow_succ] at ha; omega)
    have hb2 : b / 256 < 256 ^ k := Nat.div_lt_of_lt_mul (by rw [pow_succ] at hb; omega)
    have e3 : a / 256 = b / 256 := ih _ _ ha2 hb2 h3
    omega

theorem md5hex_inj (a b : Nat)
    (ha : a < 340282366920938463463374607431768211456)
    (hb : b < 340282366920938463463374607431768211456) :
    md5hex a = md5hex b → a = b := by
  intro h
  have hd : digestChars 16 a = digestChars 16 b := by
    have := congrArg String.data h
    simpa [md5hex] using this
  have h16 : (256 : Nat) ^ 16 = 340282366920938463463374607431768211456 := by norm_num
  exact digestChars_inj 16 a b (h16.symm ▸ ha) (h16.symm ▸ hb) hd

/-! ## Injectivity of the `repr` serialization -/

theorem hexVal_hexDigit : ∀ m < 16, hexVal (hexDigit m) = m := by decide

theorem string_data_inj {s1 s2 : String} (h : s1.data = s2.data) : s1 = s2 := by
  cases s1; cases s2; exact congrArg String.mk h

theorem quote_ne_backslash {q : Char} (hq : q = '\'' ∨ q = '"') : q ≠ '\\' := by
  rcases hq with h | h <;> subst h <;> decide

theorem quote_ne_x {q : Char} (hq : q = '\'' ∨ q = '"') : q ≠ 'x' := by
  rcases hq with h | h <;> subst h <;> decide

theorem unesc_quote {q : Char} (hq : q = '\'' ∨ q = '"') : unesc q = q := by
  rcases hq with h | h <;> subst h <;> decide

theorem pyQuote_cases (s : String) : pyQuote s = '\'' ∨ pyQuote s = '"' := by
  unfold pyQuote
  by_cases h : ('\'' ∈ s.data ∧ ¬ '"' ∈ s.data) <;> simp [h]

theorem decodeBody_quote (q : Char) (r : List Char) :
    decodeBody q (q :: r) = some ([], r) := by
  rw [decodeBody.eq_def]; simp

theorem decodeBody_esc {q : Char} (hbq : ('\\' : Char) ≠ q) {e : Char} (he : e ≠ 'x')
    (M : List Char) :
    decodeBody q ('\\' :: e :: M) =
      (decodeBody q M).map (fun p => (unesc e :: p.1, p.2)) := by
  rw [decodeBody.eq_def]; simp [hbq, he]

theorem decodeBody_hex {q : Char} (hbq : ('\\' : Char) ≠ q) (c1 c2 : Char)
    (M : List Char) :
    decodeBody q ('\\' :: 'x' :: c1 :: c2 :: M) =
      (decodeBody q M).map
        (fun p => (Char.ofNat (16 * hexVal c1 + hexVal c2) :: p.1, p.2)) := by
  rw [decodeBody.eq_def]; simp [hbq]

theorem decodeBody_lit {q c : Char} (hcq : c ≠ q) (hcb : c ≠ '\\') (M : List Char) :
    decodeBody q (c :: M) = (decodeBody q M).map (fun p => (c :: p.1, p.2)) := by
  rw [decodeBody.eq_def]; simp [hcq, hcb]

theorem decodeBody_roundtrip {q : Char} (hq : q = '\'' ∨ q = '"') :
    ∀ cs r : List Char,
    decodeBody q (cs.flatMap (reprEscChar q) ++ q :: r) = some (cs, r) := by
  intro cs
  have hbq : ('\\' : Char) ≠ q := Ne.symm (quote_ne_backslash hq)
  induction cs with
  | nil => intro r; simpa using decodeBody_quote q r
  | cons c cs ih =>
    intro r
    rw [List.flatMap_cons, List.append_assoc]
    by_cases h1 : c = '\\'
    · subst h1
      rw [show reprEscChar q '\\' = ['\\', '\\'] from by simp [reprEscChar]]
      simpa [unesc, ih r] using decodeBody_esc hbq (by decide)
        (cs.flatMap (reprEscChar q) ++ q :: r)
    · by_cases h2 : c = q
      · subst h2
        rw [show reprEscChar c c = ['\\', c] from by simp [reprEscChar, h1]]
        simpa [unesc_quote hq, ih r] using decodeBody_esc hbq (quote_ne_x hq)
          (cs.flatMap (reprEscChar c) ++ c :: r)
      · by_cases h3 : c = '\n'
        · subst h3
          rw [show reprEscChar q '\n' = ['\\', 'n'] from by simp [reprEscChar, h2]]
          simpa [unesc, ih r] using decodeBody_esc hbq (by decide)
            (cs.flatMap (reprEscChar q) ++ q :: r)
        · by_cases h4 : c = '\r'
          · subst h4
            rw [show reprEscChar q '\r' = ['\\', 'r'] from by simp [reprEscChar, h2]]
            simpa [unesc, ih r] using decodeBody_esc hbq (by decide)
              (cs.flatMap (reprEscChar q) ++ q :: r)
          · by_cases h5 : c = '\t'
            · subst h5
              rw [show reprEscChar q '\t' = ['\\', 't'] from by simp [reprEscChar, h2]]
              simpa [unesc, ih r] using decodeBody_esc hbq (by decide)
                (cs.flatMap (reprEscChar q) ++ q :: r)
            · by_cases h6 : c.toNat < 32 ∨ c.toNat = 127
              · have hlt : c.toNat < 128 := by rcases h6 with h | h <;> omega
                rw [show reprEscChar q c =
                    ['\\', 'x', hexDigit (c.toNat / 16), hexDigit (c.toNat % 16)] from by
                  simp [reprEscChar, h1, h2, h3, h4, h5, h6]]
                rw [show (['\\', 'x', hexDigit (c.toNat / 16), hexDigit (c.toNat % 16)] ++
                    (cs.flatMap (reprEscChar q) ++ q :: r) : List Char) =
                    '\\' :: 'x' :: hexDigit (c.toNat / 16) :: hexDigit (c.toNat % 16) ::
                    (cs.flatMap (reprEscChar q) ++ q :: r) from rfl]
                rw [decodeBody_hex hbq, ih r]
                rw [hexVal_hexDigit _ (by omega), hexVal_hexDigit _ (by omega)]
                have hc : 16 * (c.toNat / 16) + c.toNat % 16 = c.toNat := by omega
                rw [hc, Char.ofNat_toNat]
                rfl
              · rw [show reprEscChar q c = [c] from by
                  simp [reprEscChar, h1, h2, h3, h4, h5, h6]]
                simpa [ih r] using decodeBody_lit h2 h1
                  (cs.flatMap (reprEscChar q) ++ q :: r)

theorem pyReprStr_det {s1 s2 : String} {t1 t2 : List Char}
    (h : pyReprStr s1 ++ t1 = pyReprStr s2 ++ t2) : s1 = s2 ∧ t1 = t2 := by
  unfold pyReprStr at h
  rw [List.cons_append, List.cons_append] at h
  injection h with hq hb
  rw [List.append_assoc, List.append_assoc, List.singleton_append,
    List.singleton_append] at hb
  rw [← hq] at hb
  unfold escBody at hb
  have a1 := decodeBody_roundtrip (pyQuote_cases s1) s1.data t1
  have a2 := decodeBody_roundtrip (pyQuote_cases s1) s2.data t2
  rw [hb] at a1
  have hsome := Option.some.inj (a1.symm.trans a2)
  exact ⟨string_data_inj (congrArg Prod.fst hsome), congrArg Prod.snd hsome⟩

theorem pyReprStr_head_ne (s : String) {c : Char} (hc1 : c ≠ '\'') (hc2 : c ≠ '"')
    (M t : List Char) : pyReprStr s ++ t ≠ c :: M := by
  unfold pyReprStr
  rw [List.cons_append]
  intro h
  injection h with h1 _
  rcases pyQuote_cases s with hq | hq
  · exact hc1 (h1.symm.trans hq)
  · exact hc2 (h1.symm.trans hq)

theorem listBody_str_det :
    ∀ (r1 r2 : List String) (t1 t2 : List Char),
    listBody pyReprStr r1 ++ (']' :: t1) = listBody pyReprStr r2 ++ (']' :: t2) →
    r1 = r2 ∧ t1 = t2 := by
  intro r1
  induction r1 with
  | nil =>
    intro r2 t1 t2 h
    cases r2 with
    | nil =>
      simp only [listBody, List.nil_append, List.cons.injEq] at h
      exact ⟨rfl, h.2⟩
    | cons s2 cs2 =>
      exfalso
      simp only [listBody, List.nil_append, List.append_assoc] at h
      exact pyReprStr_head_ne s2 (by decide) (by decide) _ _ h.symm
  | cons s1 cs1 ih =>
    intro r2 t1 t2 h
    cases r2 with
    | nil =>
      exfalso
      simp only [listBody, List.nil_append, List.append_assoc] at h
      exact pyReprStr_head_ne s1 (by decide) (by decide) _ _ h
    | cons s2 cs2 =>
      simp only [listBody, List.append_assoc] at h
      obtain ⟨hs, hrest⟩ := pyReprStr_det h
      subst hs
      have htail : cs1 = cs2 ∧ t1 = t2 := by
        cases cs1 with
        | nil =>
          cases cs2 with
          | nil =>
            simp only [sepRest, List.nil_append, List.cons.injEq] at hrest
            exact ⟨rfl, hrest.2⟩
          | cons x2 xs2 =>
            exfalso
            simp only [sepRest, List.cons_append, List.nil_append,
              List.cons.injEq] at hrest
            exact absurd hrest.1 (by decide)
        | cons x1 xs1 =>
          cases cs2 with
          | nil =>
            exfalso
            simp only [sepRest, List.cons_append, List.nil_append,
              List.cons.injEq] at hrest
            exact absurd hrest.1 (by decide)
          | cons x2 xs2 =>
            simp only [sepRest, List.cons_append, List.cons.injEq] at hrest
            obtain ⟨-, -, hrest⟩ := hrest
            exact ih (x2 :: xs2) t1 t2 hrest
      exact ⟨by rw [htail.1], htail.2⟩

theorem pyReprRow_det {r1 r2 : List String} {t1 t2 : List Char}
    (h : pyReprRow r1 ++ t1 = pyReprRow r2 ++ t2) : r1 = r2 ∧ t1 = t2 := by
  unfold pyReprRow at h
  rw [List.cons_append, List.cons_append] at h
  injection h with _ hb
  rw [List.append_assoc, List.append_assoc, List.singleton_append,
    List.singleton_append] at hb
  exact listBody_str_det r1 r2 t1 t2 hb

theorem pyReprRow_head_ne (r : List String) {c : Char} (hc : c ≠ '[')
    (M t : List Char) : pyReprRow r ++ t ≠ c :: M := by
  unfold pyReprRow
  rw [List.cons_append]
  intro h
  injection h with h1 _
  exact hc h1.symm

theorem listBody_row_det :
    ∀ (g1 g2 : List (List String)) (t1 t2 : List Char),
    listBody pyReprRow g1 ++ (']' :: t1) = listBody pyReprRow g2 ++ (']' :: t2) →
    g1 = g2 ∧ t1 = t2 := by
  intro g1
  induction g1 with
  | nil =>
    intro g2 t1 t2 h
    cases g2 with
    | nil =>
      simp only [listBody, List.nil_append, List.cons.injEq] at h
      exact ⟨rfl, h.2⟩
    | cons s2 cs2 =>
      exfalso
      simp only [listBody, List.nil_append, List.append_assoc] at h
      exact pyReprRow_head_ne s2 (by decide) _ _ h.symm
  | cons s1 cs1 ih =>
    intro g2 t1 t2 h
    cases g2 with
    | nil =>
      exfalso
      simp only [listBody, List.nil_append, List.append_assoc] at h
      exact pyReprRow_head_ne s1 (by decide) _ _ h
    | cons s2 cs2 =>
      simp only [listBody, List.append_assoc] at h
      obtain ⟨hs, hrest⟩ := pyReprRow_det h
      subst hs
      have htail : cs1 = cs2 ∧ t1 = t2 := by
        cases cs1 with
        | nil =>
          cases cs2 with
          | nil =>
            simp only [sepRest, List.nil_append, List.cons.injEq] at hrest
            exact ⟨rfl, hrest.2⟩
          | cons x2 xs2 =>
            exfalso
            simp only [sepRest, List.cons_append, List.nil_append,
              List.cons.injEq] at hrest
            exact absurd hrest.1 (by decide)
        | cons x1 xs1 =>
          cases cs2 with
          | nil =>
            exfalso
            simp only [sepRest, List.cons_append, List.nil_append,
              List.cons.injEq] at hrest
            exact absurd hrest.1 (by decide)
          | cons x2 xs2 =>
            simp only [sepRest, List.cons_append, List.cons.injEq] at hrest
            obtain ⟨-, -, hrest⟩ := hrest
            exact ih (x2 :: xs2) t1 t2 hrest
      exact ⟨by rw [htail.1], htail.2⟩

theorem pyStr_inj {g1 g2 : List (List String)} (h : pyStr g1 = pyStr g2) :
    g1 = g2 := by
  unfold pyStr at h
  have hd : '[' :: (listBody pyReprRow g1 ++ [']']) =
      '[' :: (listBody pyReprRow g2 ++ [']']) := congrArg String.data h
  injection hd with _ hb
  exact (listBody_row_det g1 g2 [] [] hb).1

theorem natStr_inj {a b : Nat} (h : natStr a = natStr b) : a = b := by
  have hl := congrArg String.length h
  simpa [natStr, String.length] using hl

theorem cellDiffers_ne {g1 g2 : List (List String)} (h : cellDiffers g1 g2) :
    g1 ≠ g2 := by
  intro he
  obtain ⟨i, j, hij⟩ := h
  exact hij (he ▸ rfl)

theorem wsDigest_eq_of_md5_eq {g1 g2 : List (List String)}
    (h : md5Nat (utf8Bytes (pyStr g1)) = md5Nat (utf8Bytes (pyStr g2))) :
    wsDigest g1 = wsDigest g2 := congrArg md5hex h

theorem md5Nat_eq_of_wsDigest_eq {g1 g2 : List (List String)}
    (h : wsDigest g1 = wsDigest g2) :
    md5Nat (utf8Bytes (pyStr g1)) = md5Nat (utf8Bytes (pyStr g2)) :=
  md5hex_inj _ _ (md5Nat_lt _) (md5Nat_lt _) h

/-! ## The claims -/

/-- C1: for every list of requested worksheet names, every assignment of current
worksheet contents (hence digests), and every prior state mapping, the per-worksheet
loop reports a worksheet as changed if and only if it has no entry in the prior
state or its current digest differs from the prior entry; the changed list is the
requested list filtered by that predicate, hence preserves request order. -/
theorem change_detector_is_ordered_filter
    (g : String → List (List String)) (prior : List (String × String))
    (names : List String) :
    ∃ cur, checkLoop (okOracle g) prior names [] [] =
      .ok (cur, names.filter (specChanged prior g)) ∧
      ∀ n, specChanged prior g n = true ↔
        (dictGet prior n = none ∨
          ∃ h0, dictGet prior n = some h0 ∧ h0 ≠ wsDigest (g n)) := by
  refine ⟨runHashes g names, checkLoop_specChanged g prior names, fun n => ?_⟩
  unfold specChanged
  cases h : dictGet prior n <;> simp [h]

/-- C2 counterexample: with the single configured worksheet literally named
`last_checked` (content `[["x"]]`, empty prior state, run timestamp `"T"`), the
run succeeds but the persisted state maps `last_checked` to the timestamp `"T"`
and not to the digest computed for that worksheet in the run — so the state does
not map every configured worksheet name to its computed digest. -/
theorem state_not_digest_for_last_checked_name :
    (outState (main_run (okOracle (fun _ => [["x"]])) ["last_checked"] [] "T" true
        (.ok 200))).map (fun d => dictGet d "last_checked") = some (some "T") ∧
    "T" ≠ wsDigest [["x"]] := by
  constructor
  · rw [main_run_okOracle]
    simp [outState, dictGet_savedStateOf]
  · exact ne_wsDigest_of_length _ (by decide)

/-- C2 amended: after every successful run the persisted state is fully
replaced: it maps the `last_checked` key to the run timestamp, every other
configured worksheet name to the digest computed for it in that run, and no
other key — in particular every entry of the previous state whose name is not in
the current worksheet list is dropped.  (The original claim fails only when a
worksheet is itself named `last_checked`: its digest is then overwritten by the
timestamp.) -/
theorem state_fully_replaced (g : String → List (List String))
    (names : List String) (prior : List (String × String)) (nowIso : String)
    (resp : Except String Nat) :
    ∃ out, main_run (okOracle g) names prior nowIso true resp = .ok out ∧
      ∀ k, dictGet out.savedState k =
        if k = "last_checked" then some nowIso
        else if k ∈ names then some (wsDigest (g k)) else none :=
  ⟨_, main_run_okOracle g names prior nowIso resp,
    fun k => dictGet_savedStateOf g names nowIso k⟩

/-- C3: notification delivery failure never aborts the run — the notifier
returns `false` on a transport error instead of raising, and for every delivery
outcome whatsoever the run still completes and rewrites the state with the
current digests. -/
theorem notification_failure_never_blocks_state
    (g : String → List (List String)) (names : List String)
    (prior : List (String × String)) (nowIso : String) :
    (∀ e, send_google_chat_card (.error e) = false) ∧
    ∀ resp : Except String Nat, ∃ out,
      main_run (okOracle g) names prior nowIso true resp = .ok out ∧
      out.savedState = savedStateOf g names nowIso :=
  ⟨fun _ => rfl, fun resp => ⟨_, main_run_okOracle g names prior nowIso resp, rfl⟩⟩

/-- C4 counterexample: the digest is a fixed-length 128-bit MD5 value of the
serialized content, so among the infinitely many single-cell grids two with
different cell text must share a digest — it is not true that every pair of
contents differing in a cell's text has different digests. -/
theorem digest_not_injective :
    ¬ ∀ g1 g2 : List (List String),
        cellDiffers g1 g2 → wsDigest g1 ≠ wsDigest g2 := by
  intro h
  obtain ⟨a, b, hab, hf⟩ := Finite.exists_ne_map_eq_of_infinite
    (fun n : Nat => (⟨md5Nat (utf8Bytes (pyStr [[natStr n]])), md5Nat_lt _⟩ :
      Fin 340282366920938463463374607431768211456))
  simp only [Fin.mk.injEq] at hf
  refine h [[natStr a]] [[natStr b]] ⟨0, 0, ?_⟩ (wsDigest_eq_of_md5_eq hf)
  intro he
  exact hab (natStr_inj (Option.some.inj (by simpa [cellAt] using he)))

/-- C4 amended: the content serialization is sensitive — contents differing in
the textual value of at least one cell serialize to different content strings —
and hence the digests differ whenever the 128-bit MD5 value does not collide on
those two distinct strings (a collision being possible in principle for any
fixed-length hash, though never observed for well-separated inputs like these). -/
theorem serialization_sensitive (g1 g2 : List (List String))
    (h : cellDiffers g1 g2) :
    pyStr g1 ≠ pyStr g2 ∧
      (md5Nat (utf8Bytes (pyStr g1)) ≠ md5Nat (utf8Bytes (pyStr g2)) →
        wsDigest g1 ≠ wsDigest g2) :=
  ⟨fun he => cellDiffers_ne h (pyStr_inj he),
   fun hm hd => hm (md5Nat_eq_of_wsDigest_eq hd)⟩

theorem serialization_sensitive_witness :
    cellDiffers [["a"]] [["b"]] ∧
      (pyStr [["a"]] ≠ pyStr [["b"]] ∧
        (md5Nat (utf8Bytes (pyStr [["a"]])) ≠ md5Nat (utf8Bytes (pyStr [["b"]])) →
          wsDigest [["a"]] ≠ wsDigest [["b"]])) :=
  ⟨⟨0, 0, by decide⟩, serialization_sensitive [["a"]] [["b"]] ⟨0, 0, by decide⟩⟩

/-- C5 counterexample: HTTP 204 is a 200-class status, yet the notifier reports
failure for it — success is not the whole 2xx range. -/
theorem status_204_reported_failure :
    200 ≤ 204 ∧ 204 < 300 ∧ send_google_chat_card (.ok 204) = false := by decide

/-- C5 amended: delivery is reported successful if and only if the HTTP status
code is exactly 200; every other status code, and every transport error, is
reported as failure. -/
theorem success_iff_status_200 :
    (∀ code, send_google_chat_card (.ok code) = true ↔ code = 200) ∧
    ∀ e, send_google_chat_card (.error e) = false := by
  refine ⟨fun code => ?_, fun _ => rfl⟩
  simp [send_google_chat_card]

/-- C6: loading the persisted state when the file is missing or unparsable
returns the empty state rather than an error, and a run starting from that empty
state reports every configured worksheet as changed. -/
theorem missing_state_all_changed (g : String → List (List String))
    (names : List String) (nowIso : String) (resp : Except String Nat) :
    load_last_hashes none = [] ∧ load_last_hashes (some none) = [] ∧
    ∃ out, main_run (okOracle g) names (load_last_hashes none) nowIso true resp =
        .ok out ∧ out.changed = names := by
  refine ⟨rfl, rfl, _, main_run_okOracle g names (load_last_hashes none) nowIso resp, ?_⟩
  exact List.filter_eq_self.mpr (fun a _ => rfl)

/-- C7: a failed state-file write is fatal — `save_hashes` exits with status 1,
and the whole run then exits with status 1 instead of reporting a result
(in particular it cannot report success). -/
theorem save_failure_fatal (g : String → List (List String)) (names : List String)
    (prior : List (String × String)) (nowIso : String) (resp : Except String Nat) :
    (∀ d, save_hashes false d = .error 1) ∧
    main_run (okOracle g) names prior nowIso false resp = .error 1 :=
  ⟨fun _ => rfl, main_run_writeFail g names prior nowIso resp⟩

set_option maxRecDepth 10000 in
/-- C8 counterexample: with the single worksheet literally named `last_checked`
and constant content, the first run persists successfully and nothing changes
before the second run, yet the second run still reports that worksheet changed
and makes a notification call — so back-to-back runs are not idempotent as
stated. -/
theorem second_run_reports_change_for_last_checked :
    ∃ out1 out2,
      main_run (okOracle (fun _ => [["x"]])) ["last_checked"] [] "T1" true
        (.ok 200) = .ok out1 ∧
      main_run (okOracle (fun _ => [["x"]])) ["last_checked"] out1.savedState "T2"
        true (.ok 200) = .ok out2 ∧
      out2.changed = ["last_checked"] ∧ out2.notified = some true := by
  have hne : ("T1" : String) ≠ wsDigest [["x"]] := ne_wsDigest_of_length _ (by decide)
  have hp : specChanged (savedStateOf (fun _ => [["x"]]) ["last_checked"] "T1")
      (fun _ => [["x"]]) "last_checked" = true := by
    unfold specChanged
    rw [dictGet_savedStateOf]
    simp [hne]
  have hfilter : (["last_checked"].filter
      (specChanged (savedStateOf (fun _ => [["x"]]) ["last_checked"] "T1")
        (fun _ => [["x"]]))) = ["last_checked"] := by
    simp [List.filter_cons, hp]
  refine ⟨_, _, main_run_okOracle _ _ _ _ _, main_run_okOracle _ _ _ _ _, ?_, ?_⟩
  · exact hfilter
  · show (if (["last_checked"].filter
        (specChanged (savedStateOf (fun _ => [["x"]]) ["last_checked"] "T1")
          (fun _ => [["x"]]))).isEmpty then none
      else some (send_google_chat_card (.ok 200))) = some true
    rw [hfilter]
    rfl

/-- C8 amended: provided no configured worksheet is literally named
`last_checked`, if a run completes with successful state persistence and no
worksheet content changes before the next run, the next run over the same
worksheets reports an empty change set, makes no notification call, and still
refreshes the `last_checked` timestamp.  (A worksheet named `last_checked` has
its stored digest replaced by the timestamp, so it is reported changed again.) -/
theorem second_run_no_changes (g : String → List (List String))
    (names : List String) (prior : List (String × String)) (ts1 ts2 : String)
    (resp1 resp2 : Except String Nat) (h : "last_checked" ∉ names) :
    ∃ out1 out2,
      main_run (okOracle g) names prior ts1 true resp1 = .ok out1 ∧
      main_run (okOracle g) names out1.savedState ts2 true resp2 = .ok out2 ∧
      out2.changed = [] ∧ out2.notified = none ∧
      dictGet out2.savedState "last_checked" = some ts2 := by
  have hempty : names.filter (specChanged (savedStateOf g names ts1) g) = [] := by
    rw [List.filter_eq_nil_iff]
    intro a ha
    have hne : a ≠ "last_checked" := fun he => h (he ▸ ha)
    unfold specChanged
    rw [dictGet_savedStateOf]
    simp [hne, ha]
  refine ⟨_, _, main_run_okOracle g names prior ts1 resp1,
    main_run_okOracle g names _ ts2 resp2, ?_, ?_, ?_⟩
  · exact hempty
  · show (if (names.filter (specChanged (savedStateOf g names ts1) g)).isEmpty
        then none else some (send_google_chat_card resp2)) = none
    rw [hempty]
    rfl
  · show dictGet (savedStateOf g names ts2) "last_checked" = some ts2
    simp [dictGet_savedStateOf]

theorem second_run_no_changes_witness :
    "last_checked" ∉ ["Eggs"] ∧
    (∃ out1 out2,
      main_run (okOracle (fun _ => [["x"]])) ["Eggs"] [] "T1" true (.ok 200) =
        .ok out1 ∧
      main_run (okOracle (fun _ => [["x"]])) ["Eggs"] out1.savedState "T2" true
        (.ok 200) = .ok out2 ∧
      out2.changed = [] ∧ out2.notified = none ∧
      dictGet out2.savedState "last_checked" = some "T2") :=
  ⟨by decide, second_run_no_changes _ _ _ _ _ _ _ (by decide)⟩

/-- C9: with a worksheet name listed more than once, each occurrence is fetched
and compared against the same prior entry independently, so a changed worksheet
appears in the change list once per occurrence (the change set can contain
duplicates), and the notification card's count line and bulleted list are built
from that duplicated list. -/
theorem duplicates_reported_per_occurrence (g : String → List (List String))
    (names : List String) (prior : List (String × String)) (nowIso sid : String)
    (resp : Except String Nat) (n : String)
    (h : dictGet prior n ≠ some (wsDigest (g n))) :
    ∃ out, main_run (okOracle g) names prior nowIso true resp = .ok out ∧
      out.changed.count n = names.count n ∧
      (buildCard out.changed sid).countText =
        toString out.changed.length ++ " worksheet(s) updated" ∧
      (buildCard out.changed sid).worksheetsText =
        String.intercalate "\n" (out.changed.map (fun w => "• " ++ w)) := by
  have hp : specChanged prior g n = true := by
    unfold specChanged
    cases hd : dictGet prior n with
    | none => rfl
    | some h0 =>
      simp only [decide_eq_true_eq]
      intro he
      exact h (by rw [hd, he])
  exact ⟨_, main_run_okOracle g names prior nowIso resp,
    count_filter_of_pred n hp names, rfl, rfl⟩

theorem duplicates_reported_witness :
    dictGet [] "A" ≠ some (wsDigest ((fun _ => [["x"]]) "A")) ∧
    (∃ out, main_run (okOracle (fun _ => [["x"]])) ["A", "A"] [] "T" true
        (.ok 200) = .ok out ∧
      out.changed.count "A" = (["A", "A"] : List String).count "A" ∧
      (buildCard out.changed "SID").countText =
        toString out.changed.length ++ " worksheet(s) updated" ∧
      (buildCard out.changed "SID").worksheetsText =
        String.intercalate "\n" (out.changed.map (fun w => "• " ++ w))) :=
  ⟨by simp [dictGet], duplicates_reported_per_occurrence _ _ _ _ _ _ _
    (by simp [dictGet])⟩

/-- C10: the run timestamp is stored under the key `last_checked` in the same
dict as the digests; for a configured worksheet literally named `last_checked`,
the persisted entry is therefore the timestamp rather than the computed digest,
and (whenever the stored timestamp differs from the current digest) that
worksheet is reported changed on the subsequent run. -/
theorem last_checked_key_clash (g : String → List (List String))
    (names : List String) (prior : List (String × String)) (ts1 ts2 : String)
    (resp1 resp2 : Except String Nat)
    (h1 : "last_checked" ∈ names) (h2 : ts1 ≠ wsDigest (g "last_checked")) :
    ∃ out1 out2,
      main_run (okOracle g) names prior ts1 true resp1 = .ok out1 ∧
      dictGet out1.savedState "last_checked" = some ts1 ∧
      main_run (okOracle g) names out1.savedState ts2 true resp2 = .ok out2 ∧
      "last_checked" ∈ out2.changed := by
  refine ⟨_, _, main_run_okOracle g names prior ts1 resp1, ?_,
    main_run_okOracle g names _ ts2 resp2, ?_⟩
  · show dictGet (savedStateOf g names ts1) "last_checked" = some ts1
    simp [dictGet_savedStateOf]
  · show "last_checked" ∈ names.filter (specChanged (savedStateOf g names ts1) g)
    rw [List.mem_filter]
    refine ⟨h1, ?_⟩
    unfold specChanged
    rw [dictGet_savedStateOf]
    simp [h2]

theorem last_checked_key_clash_witness :
    "last_checked" ∈ ["last_checked"] ∧
    ("T1" : String) ≠ wsDigest [["x"]] ∧
    (∃ out1 out2,
      main_run (okOracle (fun _ => [["x"]])) ["last_checked"] [] "T1" true
        (.ok 200) = .ok out1 ∧
      dictGet out1.savedState "last_checked" = some "T1" ∧
      main_run (okOracle (fun _ => [["x"]])) ["last_checked"] out1.savedState "T2"
        true (.ok 200) = .ok out2 ∧
      "last_checked" ∈ out2.changed) :=
  ⟨by decide, ne_wsDigest_of_length _ (by decide),
    last_checked_key_clash _ _ _ _ _ _ _ (by decide)
      (ne_wsDigest_of_length _ (by decide))⟩
